import Mathlib

/-!
Verification of the PDF-translator core (`src/main.py`).

Shallow embedding of the translation pipeline of `TranslateApi` in
`src/main.py`: text chunking and boilerplate filtering (`__translate`),
the per-block OCR/translation/quality-gate/compositing step and the
references-title state machine (`__translate_one_page`), the per-page
loop (`_translate_pdf`), and the merge order of the page files
(`__merge_pdfs`).

Strings are embedded as `List Char` (Python strings are sequences of
code points, and `len`, slicing, `rsplit`, `startswith`, `re` character
classes all operate on code points).  Page images are embedded as pixel
matrices `List (List Nat)`; the numpy slice assignment
`img[y0:y1, x0:x1] = block` becomes a pure function `writeRegion`.
The external models (Marian translation, fw_fill text wrapping, PIL
glyph rendering, PIL resizing) are opaque collaborators of the core and
enter the embedding as function-valued parameters bundled in `Models`.
-/

namespace PdfTranslator

/-- A Python string, as its sequence of code points. -/
abbrev Str := List Char

/-! ## Chunking (`__translate`, src/main.py lines 273-282)

```python
if len(text) > 512:
    texts = []
    rest = text
    for i in range(int(len(text) / 512) + 1):
        truncated = rest[: (i + 1) * 512].rsplit(".", 1)[0]
        texts.append(truncated)
        rest = rest[len(truncated) :]
else:
    texts = [text]
```
-/

/-- Python `s.rsplit(".", 1)[0]`: everything before the last `'.'` of
`s`, or `s` itself when `s` has no `'.'`. -/
def beforeLastDot (s : Str) : Str :=
  match s.reverse.dropWhile (fun c => c ≠ '.') with
  | [] => s
  | _ :: r => r.reverse

/-- The chunking loop of `__translate`.  `n` is the number of remaining
iterations, `i` the current Python loop index.  Each iteration takes the
window `rest[: (i+1)*512]`, backs off to the last period, and drops the
emitted chunk from `rest`. -/
def chunkLoop : Nat → Nat → Str → List Str
  | 0, _, _ => []
  | n + 1, i, rest =>
    let t := beforeLastDot (rest.take ((i + 1) * 512))
    t :: chunkLoop n (i + 1) (rest.drop t.length)

/-- The chunking step of `__translate`.  `int(len(text) / 512)` is exact
float division by `2 ^ 9` truncated towards zero, which for natural
lengths equals `text.length / 512` in `Nat`. -/
def chunkText (text : Str) : List Str :=
  if 512 < text.length then chunkLoop (text.length / 512 + 1) 0 text
  else [text]

/-- The boilerplate artifact marker of `__translate`
(`res.startswith("「この版")`). -/
def boilerplate : Str := "「この版".data

/-- The whole of `__translate` (src/main.py lines 257-298) as a function
of the external per-chunk translation primitive `tr` (tokenize, generate
with `max_length=512`, decode): translate every chunk, drop translations
that start with the boilerplate marker, and concatenate the survivors
with no separator. -/
def translateText (tr : Str → Str) (text : Str) : Str :=
  (((chunkText text).map tr).filter
    (fun r => !(List.isPrefixOf boilerplate r))).flatten

/-! ## Quality gate (`__translate_one_page`, src/main.py lines 213-220) -/

/-- Membership in the character class
`[぀-ゟ゠-ヿ一-鿿㐀-䶿]`
(Hiragana, Katakana, CJK Unified Ideographs, CJK Extension A). -/
def isJaChar (c : Char) : Bool :=
  (0x3040 ≤ c.toNat && c.toNat ≤ 0x309F) ||
  (0x30A0 ≤ c.toNat && c.toNat ≤ 0x30FF) ||
  (0x4E00 ≤ c.toNat && c.toNat ≤ 0x9FFF) ||
  (0x3400 ≤ c.toNat && c.toNat ≤ 0x4DBF)

/-- The count `len(re.findall(r"[^ ... ]", s))`: the number of
characters of `s` outside the target-script ranges. -/
def nonJaCount (s : Str) : Nat :=
  (s.filter (fun c => !(isJaChar c))).length

/-- The quality gate `len(findall) > 0.8 * len(s)`.  For every length
below `2 ^ 49` the Python float comparison `count > 0.8 * n` agrees with
the exact rational comparison `5 * count > 4 * n` (the double nearest to
`0.8` exceeds `4/5` by `2 ^ (-52) / 5`, far below the gap `1/5` between
`4n/5` and the next integer multiple of `1/5`), so the gate is embedded
with exact arithmetic. -/
def qualityReject (s : Str) : Bool :=
  decide (4 * s.length < 5 * nonJaCount s)

/-- The substitution `re.sub(r"\n|\t|\[|\]|\/|\|", " ", text)`: each
listed character is replaced by a single space. -/
def normalize (s : Str) : Str :=
  s.map (fun c =>
    if c = '\n' || c = '\t' || c = '[' || c = ']' || c = '/' || c = '|'
    then ' ' else c)

/-! ## Pages, blocks and compositing (`__translate_one_page`,
src/main.py lines 175-255) -/

/-- A page image: the numpy pixel array `np.array(image)`, as a matrix
of rows.  The pixel type is abstracted to `Nat`. -/
abbrev Img := List (List Nat)

/-- A layout bounding box `line["bbox"] = (x0, y0, x1, y1)` in pixel
coordinates. -/
structure Bbox where
  x0 : Nat
  y0 : Nat
  x1 : Nat
  y1 : Nat
deriving DecidableEq

/-- The numpy slice assignment
`img[y0:y1, x0:x1] = blk` as a pure update.  Pixels outside the
rectangle are untouched; inside it the corresponding pixel of `blk` is
written (positions `blk` does not cover keep the original pixel, which
never happens for the shape-matching writes the code performs). -/
def writeRegion (img : Img) (bb : Bbox) (blk : Img) : Img :=
  img.mapIdx (fun y row =>
    if bb.y0 ≤ y && y < bb.y1 then
      row.mapIdx (fun x p =>
        if bb.x0 ≤ x && x < bb.x1 then
          (blk.getD (y - bb.y0) []).getD (x - bb.x0) p
        else p)
    else row)

/-- Block type, from `line["type"]`: the code only distinguishes
`"title"` from everything else. -/
inductive BType
  | title
  | other
deriving DecidableEq

/-- A layout block as consumed by `__translate_one_page`: its type, its
bounding box, and the output of the external OCR model on its cropped
image — the list of recognized line texts
`list(map(lambda x: x[0], ocr_model(line["img"])[1]))`.  The cropped
image itself only feeds the external OCR model, so the block carries the
OCR result directly. -/
structure Block where
  btype : BType
  bbox : Bbox
  ocr : List Str
deriving DecidableEq

/-- The external collaborators of the core, as opaque functions:
`tr` is the per-chunk translation primitive (tokenize, generate, decode);
`fw` is `utils.fw_fill` (black-box text wrapping, second argument the
computed cell width, which Python may compute as `-1`);
`render` produces the pixel matrix of a fresh white RGB block of the
given width and height with the processed text drawn at `(0, 0)`;
`resize` is the PIL resize-to-height-1400 used for pass-through pages. -/
structure Models where
  tr : Str → Str
  fw : Str → Int → Str
  render : Str → Nat → Nat → Img
  resize : Img → Img

/-- One iteration of the block loop of `__translate_one_page`
(src/main.py lines 203-255), returning `none` where the Python code
raises (`ocr_model(line["img"])[1][0]` on an empty OCR result).

For a non-title block: require more than one OCR line, join the lines
with single spaces, normalize, translate via `__translate`, apply the
quality gate (`continue` leaves the image untouched), otherwise wrap the
text with `fw_fill` at width `int((x1 - x0) / (36 / 2)) - 1`, render it
on a white block of the bbox's size, and composite it into the image.

For a title block: take the first recognized line, lowercase it, compare
with `"references"`/`"reference"`, and set the flag on a match. -/
def processBlock (M : Models) (img : Img) (b : Block) (flag : Bool) :
    Option (Img × Bool) :=
  match b.btype with
  | BType.other =>
    if 1 < b.ocr.length then
      let text := normalize (List.intercalate [' '] b.ocr)
      let translated := translateText M.tr text
      if qualityReject translated then some (img, flag)
      else
        let w := b.bbox.x1 - b.bbox.x0
        let h := b.bbox.y1 - b.bbox.y0
        let processed := M.fw translated ((w : Int) / 18 - 1)
        some (writeRegion img b.bbox (M.render processed w h), flag)
    else some (img, flag)
  | BType.title =>
    match b.ocr.head? with
    | none => none
    | some t =>
      let tl := t.map Char.toLower
      some (img, flag || (tl == "references".data || tl == "reference".data))

/-- The block loop of `__translate_one_page`: thread the image and the
`reached_references` flag through `processBlock` over the blocks the
layout model returned, in order. -/
def processBlocks (M : Models) (img : Img) (blocks : List Block)
    (flag : Bool) : Option (Img × Bool) :=
  match blocks with
  | [] => some (img, flag)
  | b :: rest =>
    match processBlock M img b flag with
    | none => none
    | some (img', flag') => processBlocks M img' rest flag'

/-- The function `__translate_one_page`: work on `img = np.array(image)`, keep
`original_img = copy.deepcopy(img)` which is never written afterwards,
and return `(img, original_img, reached_references)`. -/
def translateOnePage (M : Models) (image : Img) (blocks : List Block)
    (flag : Bool) : Option (Img × Img × Bool) :=
  match processBlocks M image blocks flag with
  | none => none
  | some (img', flag') => some (img', image, flag')

/-- The spec-side predicate for the reference-title trigger: the block's
first recognized OCR line, lowercased, equals `"references"` or
`"reference"`. -/
def isRefTitle (b : Block) : Bool :=
  match b.ocr.head? with
  | none => false
  | some t =>
    let tl := t.map Char.toLower
    tl == "references".data || tl == "reference".data

/-! ## The page loop (`_translate_pdf`, src/main.py lines 123-154) -/

/-- A page as handed to the loop body: its rasterized image and the
blocks the external layout model produces for that image. -/
structure PageIn where
  img : Img
  blocks : List Block
deriving DecidableEq

/-- The per-page output file: pages processed before the references
section are saved as a two-panel figure (original next to translated);
pages after it are saved as the resized original image. -/
inductive PageFile
  | translated (original translatedImg : Img)
  | passThrough (resized : Img)
deriving DecidableEq

/-- The page loop of `_translate_pdf`: while `reached_references` is
false, run `__translate_one_page` and emit a two-panel page taking the
new flag from its result; once the flag is true, emit the resized
original image with no translation pass. -/
def translatePages (M : Models) (flag : Bool) :
    List PageIn → Option (List PageFile)
  | [] => some []
  | p :: rest =>
    if flag then
      match translatePages M flag rest with
      | none => none
      | some out => some (PageFile.passThrough (M.resize p.img) :: out)
    else
      match translateOnePage M p.img p.blocks flag with
      | none => none
      | some (img', orig, flag') =>
        match translatePages M flag' rest with
        | none => none
        | some out => some (PageFile.translated orig img' :: out)

/-- The document pass of `_translate_pdf`: `reached_references = False`, then
the page loop. -/
def translatePdf (M : Models) (pages : List PageIn) :
    Option (List PageFile) :=
  translatePages M false pages

/-! ## Page file names and merge order (`_translate_pdf` line 131,
`__merge_pdfs` lines 300-316) -/

/-- The format `f"{i:03}"`: the decimal digits of `i` left-padded with `'0'` to a
minimum width of three. -/
def pad3 (i : Nat) : Str :=
  let s := Nat.toDigits 10 i
  List.replicate (3 - s.length) '0' ++ s

/-- The per-page output file name `f"{i:03}.pdf"` for page index `i`. -/
def pageFileName (i : Nat) : Str := pad3 i ++ ".pdf".data

/-- Python string comparison: lexicographic on code points. -/
def strLe : Str → Str → Bool
  | [], _ => true
  | _ :: _, [] => false
  | a :: as, b :: bs =>
    if a.toNat < b.toNat then true
    else if b.toNat < a.toNat then false
    else strLe as bs

/-- The sort `sorted(pdf_files)` in `__merge_pdfs`: the order in which the page
files are appended to the merger.  Python's sort is a stable comparison
sort over string order, embedded as a stable merge sort over `strLe`.
(All entries share the directory part of the path, so comparing the file
names compares the paths.) -/
def mergeOrder (files : List Str) : List Str :=
  files.mergeSort strLe

/-! ## Concrete instances used to evaluate the embedding -/

/-- A model instance whose translation primitive always returns the
boilerplate marker, with trivial wrapping, a renderer producing a single
white pixel, and identity resizing. -/
def Mbp : Models :=
  { tr := fun _ => boilerplate
    fw := fun s _ => s
    render := fun _ _ _ => [[255]]
    resize := id }

/-- A model instance whose translation primitive echoes its input. -/
def Mecho : Models :=
  { tr := fun s => s
    fw := fun s _ => s
    render := fun _ _ _ => [[255]]
    resize := id }

/-- A two-OCR-line body block covering the pixel at `(0, 0)`. -/
def bBP : Block :=
  { btype := BType.other, bbox := ⟨0, 0, 1, 1⟩, ocr := [['a'], ['b']] }

/-- A two-OCR-line body block with Latin text. -/
def bEnglish : Block :=
  { btype := BType.other, bbox := ⟨0, 0, 1, 1⟩, ocr := ["ab".data, "cd".data] }

/-- A body block with a single OCR line. -/
def bSingle : Block :=
  { btype := BType.other, bbox := ⟨0, 0, 1, 1⟩, ocr := [['x']] }

/-- A title block whose OCR produced no lines. -/
def bTitleEmpty : Block :=
  { btype := BType.title, bbox := ⟨0, 0, 1, 1⟩, ocr := [] }

/-- A title block recognized as `References`. -/
def bTitleRefs : Block :=
  { btype := BType.title, bbox := ⟨0, 0, 1, 1⟩, ocr := ["References".data] }

end PdfTranslator

namespace PdfTranslator

/-! ## Helper lemmas -/

/-- A quality-gate rejection makes `__translate_one_page` leave the
image and the flag untouched (`continue`); so does the fewer-than-two-
lines branch, which never reaches the gate. -/
theorem processBlock_reject_skip (M : Models) (img : Img) (b : Block)
    (flag : Bool) (hb : b.btype = BType.other)
    (hq : qualityReject
      (translateText M.tr (normalize (List.intercalate [' '] b.ocr))) = true) :
    processBlock M img b flag = some (img, flag) := by
  obtain ⟨bt, bb, ocr⟩ := b
  cases hb
  simp only [processBlock] at hq ⊢
  split
  · simp [hq]
  · rfl

/-- A non-title block with fewer than two recognized OCR lines is
skipped with no effect. -/
theorem processBlock_few_lines (M : Models) (img : Img) (b : Block)
    (flag : Bool) (hb : b.btype = BType.other) (h : b.ocr.length ≤ 1) :
    processBlock M img b flag = some (img, flag) := by
  obtain ⟨bt, bb, ocr⟩ := b
  cases hb
  simp only [processBlock] at *
  rw [if_neg (by omega)]

/-- When every chunk translation carries the boilerplate marker, the
concatenation of the surviving translations is empty. -/
theorem translateText_all_boilerplate (tr : Str → Str) (text : Str)
    (h : ∀ r ∈ (chunkText text).map tr, List.isPrefixOf boilerplate r = true) :
    translateText tr text = [] := by
  unfold translateText
  have : ((chunkText text).map tr).filter
      (fun r => !(List.isPrefixOf boilerplate r)) = [] := by
    rw [List.filter_eq_nil_iff]
    intro r hr
    simp [h r hr]
  rw [this]
  rfl

/-- When the gate accepts, `__translate_one_page` composites the
rendered block into the page image. -/
theorem processBlock_render (M : Models) (img : Img) (b : Block)
    (flag : Bool) (hb : b.btype = BType.other) (hlen : 1 < b.ocr.length)
    (hq : qualityReject
      (translateText M.tr (normalize (List.intercalate [' '] b.ocr))) = false) :
    processBlock M img b flag =
      some (writeRegion img b.bbox
        (M.render
          (M.fw (translateText M.tr (normalize (List.intercalate [' '] b.ocr)))
            (((b.bbox.x1 - b.bbox.x0 : Nat) : Int) / 18 - 1))
          (b.bbox.x1 - b.bbox.x0) (b.bbox.y1 - b.bbox.y0)), flag) := by
  obtain ⟨bt, bb, ocr⟩ := b
  cases hb
  simp only [processBlock] at *
  rw [if_pos hlen, if_neg (by simp [hq])]

/-- A non-title block step returns the incoming flag unchanged. -/
theorem processBlock_flag_other (M : Models) (img : Img) (b : Block)
    (flag : Bool) (res : Img × Bool) (hb : b.btype = BType.other)
    (h : processBlock M img b flag = some res) :
    res.2 = flag := by
  obtain ⟨bt, bb, ocr⟩ := b
  cases hb
  simp only [processBlock] at h
  split at h
  · split at h
    · cases h; rfl
    · cases h; rfl
  · cases h; rfl

/-- A title block step returns the incoming flag `or`-ed with the
reference-title trigger. -/
theorem processBlock_flag_title (M : Models) (img : Img) (b : Block)
    (flag : Bool) (res : Img × Bool) (hb : b.btype = BType.title)
    (h : processBlock M img b flag = some res) :
    res.2 = (flag || isRefTitle b) := by
  obtain ⟨bt, bb, ocr⟩ := b
  cases hb
  simp only [processBlock] at h
  cases ocr with
  | nil => cases h
  | cons t rest =>
    simp only [List.head?] at h
    cases h
    simp [isRefTitle, List.head?]

/-- Once true, the flag survives one block step. -/
theorem processBlock_mono (M : Models) (img : Img) (b : Block)
    (res : Img × Bool) (h : processBlock M img b true = some res) :
    res.2 = true := by
  cases hb : b.btype
  · rw [processBlock_flag_title M img b true res hb h]
    rfl
  · exact processBlock_flag_other M img b true res hb h

/-- Once true, the flag survives the whole block loop. -/
theorem processBlocks_mono (M : Models) (blocks : List Block) :
    ∀ (img : Img) (res : Img × Bool),
      processBlocks M img blocks true = some res → res.2 = true := by
  induction blocks with
  | nil => intro img res h; cases h; rfl
  | cons b rest ih =>
    intro img res h
    simp only [processBlocks] at h
    cases hb : processBlock M img b true with
    | none => rw [hb] at h; cases h
    | some x =>
      rw [hb] at h
      have hx := processBlock_mono M img b x hb
      obtain ⟨i', f'⟩ := x
      cases hx
      exact ih i' res h

/-- A block whose title matches the reference trigger forces the flag of
any successful block-loop run that contains it. -/
theorem processBlocks_refTitle (M : Models) (blocks : List Block)
    (b : Block) (hmem : b ∈ blocks) (ht : b.btype = BType.title)
    (hr : isRefTitle b = true) :
    ∀ (img : Img) (flag : Bool) (res : Img × Bool),
      processBlocks M img blocks flag = some res → res.2 = true := by
  induction blocks with
  | nil => cases hmem
  | cons a rest ih =>
    intro img flag res h
    simp only [processBlocks] at h
    cases ha : processBlock M img a flag with
    | none => rw [ha] at h; cases h
    | some x =>
      rw [ha] at h
      obtain ⟨i', f'⟩ := x
      rcases List.mem_cons.mp hmem with hba | hbrest
      · subst hba
        have hf : f' = true := by
          have h2 := processBlock_flag_title M img b flag (i', f') ht ha
          rw [hr] at h2
          simpa using h2
        cases hf
        exact processBlocks_mono M rest i' res h
      · exact ih hbrest i' f' res h

/-- Once the flag is up, every remaining page is emitted as the resized
original with no translation pass. -/
theorem translatePages_passThrough (M : Models) (rest : List PageIn) :
    translatePages M true rest =
      some (rest.map (fun p => PageFile.passThrough (M.resize p.img))) := by
  induction rest with
  | nil => rfl
  | cons p ps ih =>
    simp [translatePages, ih]

/-! ## Order lemmas for the merge step -/

theorem strLe_refl (s : Str) : strLe s s = true := by
  induction s with
  | nil => rfl
  | cons a as ih => simp [strLe, ih]

theorem strLe_cons (a b : Char) (as bs : Str) :
    strLe (a :: as) (b :: bs) =
      (decide (a.toNat < b.toNat) ||
        (decide (a.toNat = b.toNat) && strLe as bs)) := by
  simp only [strLe]
  rcases Nat.lt_trichotomy a.toNat b.toNat with h | h | h
  · simp [h]
  · simp [h, Nat.lt_irrefl]
  · simp [Nat.lt_asymm h, h, Nat.ne_of_gt h]

theorem strLe_total : ∀ a b : Str, (strLe a b || strLe b a) = true
  | [], _ => by simp [strLe]
  | _ :: _, [] => by simp [strLe]
  | a :: as, b :: bs => by
    rcases Nat.lt_trichotomy a.toNat b.toNat with h | h | h
    · simp [strLe_cons, h]
    · have ih := strLe_total as bs
      simp [strLe_cons, h, ih]
    · simp [strLe_cons, h]

theorem strLe_trans : ∀ a b c : Str,
    strLe a b = true → strLe b c = true → strLe a c = true
  | [], _, _, _, _ => rfl
  | _ :: _, [], _, h, _ => by simp [strLe] at h
  | _ :: _, _ :: _, [], _, h => by simp [strLe] at h
  | a :: as, b :: bs, c :: cs, h1, h2 => by
    simp only [strLe_cons, Bool.or_eq_true, Bool.and_eq_true,
      decide_eq_true_eq] at h1 h2 ⊢
    rcases h1 with h1 | ⟨h1e, h1r⟩ <;> rcases h2 with h2 | ⟨h2e, h2r⟩
    · exact Or.inl (by omega)
    · exact Or.inl (by omega)
    · exact Or.inl (by omega)
    · exact Or.inr ⟨by omega, strLe_trans as bs cs h1r h2r⟩

theorem digitChar_toNat : ∀ d : Nat, d < 10 → (Nat.digitChar d).toNat = 48 + d := by
  decide

theorem toDigitsCore_eq_of_lt10 (fuel n : Nat) (acc : List Char)
    (h : n < 10) (hf : 1 ≤ fuel) :
    Nat.toDigitsCore 10 fuel n acc = Nat.digitChar n :: acc := by
  match fuel, hf with
  | f + 1, _ =>
    simp only [Nat.toDigitsCore]
    rw [if_pos (show n / 10 = 0 by omega), Nat.mod_eq_of_lt h]

theorem toDigitsCore_eq_of_lt100 (fuel n : Nat) (acc : List Char)
    (h10 : 10 ≤ n) (h : n < 100) (hf : 2 ≤ fuel) :
    Nat.toDigitsCore 10 fuel n acc =
      Nat.digitChar (n / 10) :: Nat.digitChar (n % 10) :: acc := by
  match fuel, hf with
  | f + 1, _ =>
    simp only [Nat.toDigitsCore]
    rw [if_neg (by omega)]
    rw [toDigitsCore_eq_of_lt10 f (n / 10) _ (by omega) (by omega)]

theorem toDigitsCore_eq_of_lt1000 (fuel n : Nat) (acc : List Char)
    (h100 : 100 ≤ n) (h : n < 1000) (hf : 3 ≤ fuel) :
    Nat.toDigitsCore 10 fuel n acc =
      Nat.digitChar (n / 100) :: Nat.digitChar (n / 10 % 10) ::
        Nat.digitChar (n % 10) :: acc := by
  match fuel, hf with
  | f + 1, _ =>
    simp only [Nat.toDigitsCore]
    rw [if_neg (by omega)]
    rw [toDigitsCore_eq_of_lt100 f (n / 10) _ (by omega) (by omega) (by omega)]
    have : n / 10 / 10 = n / 100 := by omega
    rw [this]

theorem pad3_eq (i : Nat) (h : i < 1000) :
    pad3 i = [Nat.digitChar (i / 100), Nat.digitChar (i / 10 % 10),
      Nat.digitChar (i % 10)] := by
  unfold pad3 Nat.toDigits
  by_cases h10 : i < 10
  · rw [toDigitsCore_eq_of_lt10 (i + 1) i [] h10 (by omega)]
    rw [show i / 100 = 0 by omega, show i / 10 % 10 = 0 by omega,
      show i % 10 = i by omega]
    rfl
  · by_cases h100 : i < 100
    · rw [toDigitsCore_eq_of_lt100 (i + 1) i [] (by omega) h100 (by omega)]
      rw [show i / 100 = 0 by omega, show i / 10 % 10 = i / 10 by omega]
      rfl
    · rw [toDigitsCore_eq_of_lt1000 (i + 1) i [] (by omega) h (by omega)]
      rfl

theorem pageFileName_le (i j : Nat) (hij : i < j) (hj : j ≤ 999) :
    strLe (pageFileName i) (pageFileName j) = true := by
  unfold pageFileName
  rw [pad3_eq i (by omega), pad3_eq j (by omega)]
  have di2 := digitChar_toNat (i / 100) (by omega)
  have di1 := digitChar_toNat (i / 10 % 10) (by omega)
  have di0 := digitChar_toNat (i % 10) (by omega)
  have dj2 := digitChar_toNat (j / 100) (by omega)
  have dj1 := digitChar_toNat (j / 10 % 10) (by omega)
  have dj0 := digitChar_toNat (j % 10) (by omega)
  simp only [List.cons_append, List.nil_append, strLe_cons, strLe_refl,
    di2, di1, di0, dj2, dj1, dj0]
  rcases Nat.lt_trichotomy (i / 100) (j / 100) with h2 | h2 | h2
  · simp [show 48 + i / 100 < 48 + j / 100 by omega]
  · rcases Nat.lt_trichotomy (i / 10 % 10) (j / 10 % 10) with h1 | h1 | h1
    · simp [h2, show 48 + i / 10 % 10 < 48 + j / 10 % 10 by omega]
    · have h0 : i % 10 < j % 10 := by omega
      simp [h2, h1, show 48 + i % 10 < 48 + j % 10 by omega]
    · exfalso; omega
  · exfalso; omega

theorem pageFileNames_pairwise (n : Nat) (hn : n ≤ 1000) :
    ((List.range n).map pageFileName).Pairwise
      (fun a b => strLe a b = true) := by
  rw [List.pairwise_map]
  refine (List.pairwise_lt_range n).imp_of_mem ?_
  intro a b ha hb hab
  exact pageFileName_le a b hab (by have := List.mem_range.mp hb; omega)

/-! ## Claims -/

/-- C8: for every input text of length at most 512 characters, the
chunking step of `__translate` produces exactly one chunk, and that
chunk is the input text itself. -/
theorem chunkText_short (text : Str) (h : text.length ≤ 512) :
    chunkText text = [text] := by
  unfold chunkText
  rw [if_neg (by omega)]

theorem chunkText_short_witness :
    ("hello".data).length ≤ 512 ∧ chunkText "hello".data = ["hello".data] :=
  ⟨by decide, chunkText_short "hello".data (by decide)⟩

set_option maxRecDepth 40000 in
/-- C1 (refuted by the code): on the 1600-character input `'a' * 1600`
the chunking loop of `__translate` produces the chunk lengths
`[512, 1024, 64, 0]` — its second chunk has 1024 characters, because the
window `rest[: (i + 1) * 512]` grows with the loop index even though
`rest` has already been trimmed.  So chunking does produce chunks longer
than 512 characters. -/
theorem chunkText_oversize_chunk :
    ((chunkText (List.replicate 1600 'a')).map List.length) = [512, 1024, 64, 0]
    ∧ ∃ c ∈ chunkText (List.replicate 1600 'a'), 512 < c.length := by
  constructor
  · decide
  · exact ⟨List.replicate 1024 'a', by decide, by decide⟩

set_option maxRecDepth 40000 in
/-- C2 (refuted by the code): on the 514-character input
`'a' * 513 + '.'` the chunking loop produces the chunks
`['a' * 512, 'a']`; the trailing `'.'` stays in `rest` when the loop
ends and is dropped, so concatenating the chunks does not reconstruct
the input. -/
theorem chunkText_join_lossy :
    512 < (List.replicate 513 'a' ++ ['.']).length
    ∧ (chunkText (List.replicate 513 'a' ++ ['.'])).flatten
        ≠ List.replicate 513 'a' ++ ['.'] := by
  constructor
  · decide
  · decide

/-- C4: the quality gate of `__translate_one_page` rejects exactly when
the count of characters outside the Hiragana, Katakana, CJK-Unified and
CJK-Extension-A ranges exceeds `0.8` times the length; a string of 100%
target-script characters is accepted, and a rejected translation leaves
the block's image region (indeed the whole page image) untouched. -/
theorem quality_gate_spec :
    (∀ s : Str, qualityReject s = true ↔ 4 * s.length < 5 * nonJaCount s)
    ∧ (∀ s : Str, (∀ c ∈ s, isJaChar c = true) → qualityReject s = false)
    ∧ (∀ (M : Models) (img : Img) (b : Block) (flag : Bool),
        b.btype = BType.other →
        qualityReject
          (translateText M.tr (normalize (List.intercalate [' '] b.ocr))) = true →
        processBlock M img b flag = some (img, flag)) := by
  refine ⟨fun s => by simp [qualityReject], fun s h => ?_, processBlock_reject_skip⟩
  have hz : nonJaCount s = 0 := by
    unfold nonJaCount
    rw [List.filter_eq_nil_iff.mpr (by intro c hc; simp [h c hc])]
    rfl
  simp [qualityReject, hz]

theorem quality_gate_spec_witness :
    qualityReject ['あ'] = false
    ∧ processBlock Mecho [[0]] bEnglish false = some ([[0]], false) :=
  ⟨quality_gate_spec.2.1 ['あ'] (by decide),
   quality_gate_spec.2.2 Mecho [[0]] bEnglish false rfl (by decide)⟩

/-- C9: `__translate_one_page` returns, next to the translated image,
an original image equal to the input page image: the compositing is
applied only to the working copy. -/
theorem original_image_preserved (M : Models) (image : Img)
    (blocks : List Block) (flag : Bool) (res : Img × Img × Bool)
    (h : translateOnePage M image blocks flag = some res) :
    res.2.1 = image := by
  unfold translateOnePage at h
  cases hpb : processBlocks M image blocks flag with
  | none => rw [hpb] at h; cases h
  | some x =>
    rw [hpb] at h
    obtain ⟨i', f'⟩ := x
    cases h
    rfl

theorem original_image_preserved_witness :
    (([[255]], [[0]], false) : Img × Img × Bool).2.1 = [[0]]
    ∧ translateOnePage Mbp [[0]] [bBP] false = some ([[255]], [[0]], false) :=
  ⟨original_image_preserved Mbp [[0]] [bBP] false ([[255]], [[0]], false) (by decide),
   by decide⟩

/-- C10: the title branch of `__translate_one_page` indexes
`ocr_model(...)[1][0]` without a guard, so a title block with an empty
OCR result makes the page processing fail (raise) instead of skipping
the block, and it is total exactly when every title block has at least
one recognized line. -/
theorem title_empty_ocr :
    (∀ (M : Models) (img : Img) (b : Block) (flag : Bool),
        b.btype = BType.title →
        (processBlock M img b flag = none ↔ b.ocr = []))
    ∧ (∀ (M : Models) (img : Img) (flag : Bool) (pre post : List Block)
        (b : Block), b.btype = BType.title → b.ocr = [] →
        translateOnePage M img (pre ++ b :: post) flag = none) := by
  have hblock : ∀ (M : Models) (img : Img) (b : Block) (flag : Bool),
      b.btype = BType.title → (processBlock M img b flag = none ↔ b.ocr = []) := by
    intro M img b flag hb
    obtain ⟨bt, bb, ocr⟩ := b
    cases hb
    cases ocr with
    | nil => simp [processBlock]
    | cons t rest => simp [processBlock, List.head?]
  have hloop : ∀ (M : Models) (blocks : List Block) (b : Block), b ∈ blocks →
      b.btype = BType.title → b.ocr = [] →
      ∀ (img : Img) (flag : Bool), processBlocks M img blocks flag = none := by
    intro M blocks b hmem ht he
    induction blocks with
    | nil => cases hmem
    | cons a rest ih =>
      intro img flag
      simp only [processBlocks]
      rcases List.mem_cons.mp hmem with hba | hbrest
      · subst hba
        rw [(hblock M img b flag ht).mpr he]
      · cases ha : processBlock M img a flag with
        | none => rfl
        | some x => exact ih hbrest x.1 x.2
  refine ⟨hblock, fun M img flag pre post b ht he => ?_⟩
  unfold translateOnePage
  rw [hloop M (pre ++ b :: post) b (by simp) ht he img flag]

theorem title_empty_ocr_witness :
    (processBlock Mbp [[0]] bTitleEmpty false = none ↔ bTitleEmpty.ocr = [])
    ∧ translateOnePage Mbp [[0]] ([] ++ bTitleEmpty :: []) false = none :=
  ⟨title_empty_ocr.1 Mbp [[0]] bTitleEmpty false rfl,
   title_empty_ocr.2 Mbp [[0]] false [] [] bTitleEmpty rfl rfl⟩

/-- C5 (the boilerplate part of the claim is refuted by the code): a
two-line block whose only chunk translation carries the boilerplate
marker ends up with the empty concatenated translation; the quality gate
accepts the empty string (`0 > 0.8 * 0` is false), so the block's region
is overwritten with the blank rendered block instead of being left
unmodified: on a page whose single pixel is `0`, the pixel becomes the
rendered `255`. -/
theorem boilerplate_block_overwritten :
    (((chunkText (normalize (List.intercalate [' '] bBP.ocr))).map Mbp.tr).all
      (fun r => List.isPrefixOf boilerplate r)) = true
    ∧ processBlock Mbp [[0]] bBP false ≠ some ([[0]], false) := by
  constructor
  · decide
  · decide

/-- C5 (amended): the fewer-than-two-lines and quality-gate skip
conditions leave the page image unmodified and the loop continues; a
boilerplate-marked chunk translation is only discarded from the
concatenation, and a block all of whose chunk translations are discarded
yields the empty translated text, which the quality gate accepts, so the
block's region is overwritten with the rendering of the empty text
rather than left unmodified. -/
theorem per_block_skip_amended :
    (∀ (M : Models) (img : Img) (b : Block) (flag : Bool),
        b.btype = BType.other → b.ocr.length ≤ 1 →
        processBlock M img b flag = some (img, flag))
    ∧ (∀ (M : Models) (img : Img) (b : Block) (flag : Bool),
        b.btype = BType.other →
        qualityReject
          (translateText M.tr (normalize (List.intercalate [' '] b.ocr))) = true →
        processBlock M img b flag = some (img, flag))
    ∧ (∀ (tr : Str → Str) (text : Str),
        (∀ r ∈ (chunkText text).map tr, List.isPrefixOf boilerplate r = true) →
        translateText tr text = [])
    ∧ (∀ (M : Models) (img : Img) (b : Block) (flag : Bool),
        b.btype = BType.other → 1 < b.ocr.length →
        translateText M.tr (normalize (List.intercalate [' '] b.ocr)) = [] →
        processBlock M img b flag =
          some (writeRegion img b.bbox
            (M.render (M.fw [] (((b.bbox.x1 - b.bbox.x0 : Nat) : Int) / 18 - 1))
              (b.bbox.x1 - b.bbox.x0) (b.bbox.y1 - b.bbox.y0)), flag)) := by
  refine ⟨processBlock_few_lines, processBlock_reject_skip,
    translateText_all_boilerplate, fun M img b flag hb hlen he => ?_⟩
  have := processBlock_render M img b flag hb hlen (by rw [he]; rfl)
  rw [he] at this
  exact this

theorem per_block_skip_amended_witness :
    processBlock Mbp [[0]] bSingle false = some ([[0]], false)
    ∧ processBlock Mecho [[0]] bEnglish false = some ([[0]], false)
    ∧ translateText Mbp.tr "a b".data = []
    ∧ processBlock Mbp [[0]] bBP false =
        some (writeRegion [[0]] bBP.bbox
          (Mbp.render (Mbp.fw [] (((bBP.bbox.x1 - bBP.bbox.x0 : Nat) : Int) / 18 - 1))
            (bBP.bbox.x1 - bBP.bbox.x0) (bBP.bbox.y1 - bBP.bbox.y0)), false) :=
  ⟨per_block_skip_amended.1 Mbp [[0]] bSingle false rfl (by decide),
   per_block_skip_amended.2.1 Mecho [[0]] bEnglish false rfl (by decide),
   per_block_skip_amended.2.2.1 Mbp.tr "a b".data (by decide),
   per_block_skip_amended.2.2.2 Mbp [[0]] bBP false rfl (by decide) (by decide)⟩

/-- C6: the `reached_references` flag starts false at the beginning of
every document pass, and no block step and no block loop ever lowers a
true flag back to false. -/
theorem reached_references_monotone :
    (∀ (M : Models) (pages : List PageIn),
        translatePdf M pages = translatePages M false pages)
    ∧ (∀ (M : Models) (img : Img) (b : Block) (flag : Bool) (res : Img × Bool),
        processBlock M img b flag = some res → flag = true → res.2 = true)
    ∧ (∀ (M : Models) (img : Img) (blocks : List Block) (flag : Bool)
        (res : Img × Bool),
        processBlocks M img blocks flag = some res → flag = true →
        res.2 = true) :=
  ⟨fun _ _ => rfl,
   fun M img b flag res h hf => processBlock_mono M img b res (hf ▸ h),
   fun M img blocks flag res h hf => processBlocks_mono M blocks img res (hf ▸ h)⟩

theorem reached_references_monotone_witness :
    processBlocks Mbp [[0]] [bTitleRefs] true = some ([[0]], true)
    ∧ (([[0]] : Img), true).2 = true :=
  ⟨by decide,
   reached_references_monotone.2.2 Mbp [[0]] [bTitleRefs] true ([[0]], true)
     (by decide) rfl⟩

/-- C3: when some title block of a page matches `references` or
`reference` (case-insensitively, on its first OCR line), that page is
still fully processed under translating rules — its output is the
two-panel file built by the ordinary block loop over all its blocks —
and every subsequent page is emitted as a pass-through page (the resized
original) with no translation applied. -/
theorem references_title_next_pages_passthrough
    (M : Models) (pimg : Img) (pblocks : List Block) (rest : List PageIn)
    (img' : Img) (flag' : Bool)
    (hrun : processBlocks M pimg pblocks false = some (img', flag'))
    (hb : ∃ b ∈ pblocks, b.btype = BType.title ∧ isRefTitle b = true) :
    translatePdf M (⟨pimg, pblocks⟩ :: rest) =
      some (PageFile.translated pimg img' ::
        rest.map (fun p => PageFile.passThrough (M.resize p.img))) := by
  obtain ⟨b, hmem, ht, hr⟩ := hb
  have hflag : flag' = true := by
    have := processBlocks_refTitle M pblocks b hmem ht hr pimg false (img', flag') hrun
    simpa using this
  subst hflag
  have h1 : translateOnePage M pimg pblocks false = some (img', pimg, true) := by
    unfold translateOnePage
    rw [hrun]
  show translatePages M false (⟨pimg, pblocks⟩ :: rest) = _
  simp only [translatePages, h1, translatePages_passThrough]
  rfl

theorem references_title_next_pages_passthrough_witness :
    translatePdf Mbp [⟨[[0]], [bTitleRefs]⟩, ⟨[[3]], ([] : List Block)⟩] =
      some [PageFile.translated [[0]] [[0]],
        PageFile.passThrough (Mbp.resize [[3]])] :=
  references_title_next_pages_passthrough Mbp [[0]] [bTitleRefs]
    [⟨[[3]], []⟩] [[0]] true (by decide) ⟨bTitleRefs, by decide, rfl, by decide⟩

/-- C7 (refuted by the code for documents over 1000 pages): the padding
width of `f"{i:03}"` is a minimum, so page 1000 is named `1000.pdf`,
which sorts lexicographically before `999.pdf`; on a 1001-page document
the merge order of `__merge_pdfs` differs from the page order. -/
theorem merge_order_1001_pages :
    mergeOrder ((List.range 1001).map pageFileName) ≠
      (List.range 1001).map pageFileName := by
  intro h
  have hs : ((List.range 1001).map pageFileName).Pairwise
      (fun a b => strLe a b = true) := by
    rw [← h]
    exact List.sorted_mergeSort (fun a b c => strLe_trans a b c)
      (fun a b => strLe_total a b) ((List.range 1001).map pageFileName)
  rw [List.pairwise_map] at hs
  have h2 := List.pairwise_iff_getElem.mp hs 999 1000
    (by simp) (by simp) (by omega)
  simp only [List.getElem_range] at h2
  exact absurd h2 (by decide)

/-- C7 (amended): `__merge_pdfs` appends the page files in ascending
lexicographic filename order; since the names are zero-padded decimal
indices of width three, for every document of at most 1000 pages the
merge order equals the page order (beyond 1000 pages the padding width
is exceeded and the orders diverge); in particular files named
`000.*`, `001.*`, `010.*` are merged in the order `000, 001, 010`. -/
theorem merge_order_spec :
    (∀ files : List Str,
        (mergeOrder files).Pairwise (fun a b => strLe a b = true))
    ∧ (∀ n : Nat, n ≤ 1000 →
        mergeOrder ((List.range n).map pageFileName) =
          (List.range n).map pageFileName)
    ∧ mergeOrder ["000.a".data, "001.b".data, "010.c".data] =
        ["000.a".data, "001.b".data, "010.c".data] := by
  refine ⟨fun files => ?_,
    fun n hn => List.mergeSort_of_sorted (pageFileNames_pairwise n hn),
    List.mergeSort_of_sorted (by decide)⟩
  exact List.sorted_mergeSort (fun a b c => strLe_trans a b c)
    (fun a b => strLe_total a b) files

theorem merge_order_spec_witness :
    mergeOrder ((List.range 2).map pageFileName) =
      (List.range 2).map pageFileName :=
  merge_order_spec.2.1 2 (by decide)

end PdfTranslator

